import Mathlib

/-!
Verification of the `pzl` process-search utility (src/pzl/__init__.py).

The development shallowly embeds the live pipeline of `main`:
field capture (`ProcInfo.from_process`), derived fields (`cmdline0`,
`parent_name`), display rules (`ProcessField.__str__` / `format`),
the three-pass matcher loop (lines 303-313), the fixed column list
(lines 315-317), row formatting (`format_row`), the sort key (`sorter`)
and the `sorted` call (line 320), and selector parsing (lines 288-297).

Python machine-level conventions used throughout:
- an OS attribute read either yields a value or raises a `psutil.Error`;
  a raised error that the code catches is modelled as `Except.error`;
- Python `None` is the `PValue.none` constructor;
- Python strings are Lean `String`s; Python compares strings
  lexicographically by code point, which is exactly `String.lt`;
- a Python-level crash (`TypeError`, an uncaught exception) is modelled
  by an `Except.error` result of the embedded function.
-/

/-- The `psutil.Error` hierarchy: the failure kinds an attribute read can
raise.  `type(e).__name__` of each is given by `errName`. -/
inductive PError where
  | accessDenied
  | noSuchProcess
  | zombieProcess
  | timeoutExpired
deriving DecidableEq, Repr

/-- Python `type(e).__name__` for a captured `psutil.Error`. -/
def errName : PError → String
  | .accessDenied => "AccessDenied"
  | .noSuchProcess => "NoSuchProcess"
  | .zombieProcess => "ZombieProcess"
  | .timeoutExpired => "TimeoutExpired"

/-- The dynamic values a `ProcessField.value` slot can hold in this
program: ints (pid/ppid), strings, string lists (cmdline), Python
`None`, or a captured `psutil.Error` instance. -/
inductive PValue where
  | int (n : Int)
  | str (s : String)
  | strList (l : List String)
  | none
  | err (e : PError)
deriving DecidableEq, Repr

/-- Python `==` on the values above.  Two captured error instances are
distinct objects and exceptions do not define `__eq__`, so they compare
by identity: separately captured failures are never `==`. -/
def pyEqV : PValue → PValue → Bool
  | .int a, .int b => a == b
  | .str a, .str b => a == b
  | .strList a, .strList b => a == b
  | .none, .none => true
  | _, _ => false

/-- Python `<` on two lists of strings (lexicographic, element `<`). -/
def pyListLt : List String → List String → Bool
  | [], [] => false
  | [], _ :: _ => true
  | _ :: _, [] => false
  | a :: as, b :: bs => if a = b then pyListLt as bs else decide (a < b)

/-- Python `<` on the values above.  Defined for int/int, str/str and
list/list; every other combination (`None` or a captured error on
either side, or mixed kinds) raises `TypeError`, modelled as
`Except.error ()`. -/
def pyLtV : PValue → PValue → Except Unit Bool
  | .int a, .int b => .ok (decide (a < b))
  | .str a, .str b => .ok (decide (a < b))
  | .strList a, .strList b => .ok (pyListLt a b)
  | _, _ => .error ()

/-- `ProcessField` (src/pzl/__init__.py lines 58-101).  The subclasses
(`ParentField`, `Cmdline0Field`, `TerminalField`) differ only in their
fixed `name` and their `__str__` specialisation, so they are embedded as
a single structure whose display function dispatches on `name`, exactly
as `ProcessField.for_name` selects the subclass by its `name`. -/
structure ProcessField where
  name : String
  value : PValue
deriving DecidableEq, Repr

/-- `ProcessField.__lt__` (lines 65-66): `self.value < other.value`. -/
def fieldLt (a b : ProcessField) : Except Unit Bool :=
  pyLtV a.value b.value

/-- Dataclass `__eq__` on `ProcessField`: compares `(name, value)`. -/
def fieldPyEq (a b : ProcessField) : Bool :=
  a.name == b.name && pyEqV a.value b.value

/-- Python tuple comparison `<` on equal-length tuples of fields: find
the first position where elements are not `==` and compare with `<`
there.  Used by `sorted(..., key=ProcInfo.sorter)`. -/
def tupleLt : List ProcessField → List ProcessField → Except Unit Bool
  | [], [] => .ok false
  | [], _ :: _ => .ok true
  | _ :: _, [] => .ok false
  | a :: as, b :: bs =>
    if fieldPyEq a b then tupleLt as bs else fieldLt a b

/-- A single quote character, for Python list repr. -/
def sglq : String := ⟨[Char.ofNat 39]⟩

/-- Python `str` of a list of strings (repr form). -/
def pyStrList (l : List String) : String :=
  "[" ++ String.intercalate ", " (l.map (fun s => sglq ++ s ++ sglq)) ++ "]"

/-- `abbrev_home` (lines 51-55): `path.removeprefix(str(Path.home()))`;
if that changed the string, prefix the remainder with `~`.  The caller's
home directory is passed explicitly as `home`. -/
def abbrev_home (home path : String) : String :=
  let h := home.toList
  let p := path.toList
  let w := if h.isPrefixOf p then p.drop h.length else p
  if w ≠ p then ⟨'~' :: w⟩ else path

/-- `TerminalField.__str__`'s transform (line 143):
`string.removeprefix("/dev/")`. -/
def stripDev (s : String) : String :=
  let l := s.toList
  if ("/dev/".toList).isPrefixOf l then ⟨l.drop 5⟩ else s

/-- Base `ProcessField.__str__` (lines 68-77): a captured error displays
as its type name, `None` as the empty string, otherwise `str(value)`. -/
def baseStr : PValue → String
  | .err e => errName e
  | .none => ""
  | .str s => s
  | .int n => toString n
  | .strList l => pyStrList l

/-- `str(field)` with subclass dispatch: `Cmdline0Field.__str__`
(lines 126-131) applies `abbrev_home` to string values,
`TerminalField.__str__` (lines 140-145) strips a leading `/dev/`;
every other field uses the base `__str__`.  In the program the only
fields named `cmdline0` / `terminal` are instances of those
subclasses, so dispatching on the name is exact. -/
def fieldStr (home : String) (f : ProcessField) : String :=
  if f.name = "cmdline0" then
    match f.value with
    | .str s => abbrev_home home s
    | v => baseStr v
  else if f.name = "terminal" then
    match f.value with
    | .str s => stripDev s
    | v => baseStr v
  else baseStr f.value

/-- `ProcessField.format` (lines 79-90): errors and `None` render as a
dimmed placeholder; the pid field gets a cyan marker; otherwise the
`__str__` form.  Rich `Text` values are modelled as their markup
strings. -/
def fieldFormat (home : String) (f : ProcessField) : String :=
  match f.value with
  | .err e => "[dim]" ++ errName e
  | .none => "[dim]none"
  | _ => (if f.name = "pid" then "[cyan]" else "") ++ fieldStr home f

/-- `ProcInfo` (lines 151-163): the eight captured fields plus the
mutable `_matched_field` annotation (written only by the matcher). -/
structure ProcInfo where
  pid : ProcessField
  ppid : ProcessField
  name : ProcessField
  cmdline : ProcessField
  exe : ProcessField
  terminal : ProcessField
  status : ProcessField
  username : ProcessField
  matchedField : Option String := Option.none
deriving DecidableEq, Repr

/-- The outcome of the per-attribute OS reads that
`ProcInfo.from_process` performs: each getter either returns its value
or raises a `psutil.Error`. -/
structure AttrReads where
  pid : Int
  name : Except PError String
  ppid : Except PError Int
  cmdline : Except PError (List String)
  exe : Except PError String
  terminal : Except PError (Option String)
  status : Except PError String
  username : Except PError String

def capStr : Except PError String → PValue
  | .ok s => .str s
  | .error e => .err e

def capInt : Except PError Int → PValue
  | .ok n => .int n
  | .error e => .err e

def capList : Except PError (List String) → PValue
  | .ok l => .strList l
  | .error e => .err e

def capOptStr : Except PError (Option String) → PValue
  | .ok (some s) => .str s
  | .ok Option.none => .none
  | .error e => .err e

/-- `ProcInfo.from_process` (lines 165-181): the pid is read directly;
each remaining getter is called under `try/except psutil.Error`, the
caught error being stored as the field's value.  `ProcessField.for_name`
gives the `ppid` and `terminal` fields their subclass names. -/
def from_process (r : AttrReads) : ProcInfo where
  pid := ⟨"pid", .int r.pid⟩
  ppid := ⟨"ppid", capInt r.ppid⟩
  name := ⟨"name", capStr r.name⟩
  cmdline := ⟨"cmdline", capList r.cmdline⟩
  exe := ⟨"exe", capStr r.exe⟩
  terminal := ⟨"terminal", capOptStr r.terminal⟩
  status := ⟨"status", capStr r.status⟩
  username := ⟨"username", capStr r.username⟩
  matchedField := Option.none

/-- `ProcInfo.cmdline0` (lines 187-196): first token of the command
line, `None` for an empty command line, and the stored value itself
(a captured error) otherwise. -/
def cmdline0 (p : ProcInfo) : ProcessField :=
  match p.cmdline.value with
  | .strList (cmd :: _) => ⟨"cmdline0", .str cmd⟩
  | .strList [] => ⟨"cmdline0", .none⟩
  | v => ⟨"cmdline0", v⟩

/-- `ProcInfo.parent_name` (lines 198-207).  When the stored parent pid
is an int, the code performs a fresh lookup `psutil.Process(ppid).name()`
with no `try/except`: a lookup failure propagates as a raised error
(`Except.error`).  For any non-int `ppid.value` (a captured failure) the
property returns `None`.  The fresh OS lookup is passed in as `lk`. -/
def parent_name (lk : Int → Except PError String) (p : ProcInfo) :
    Except PError (Option ProcessField) :=
  match p.ppid.value with
  | .int k =>
    match lk k with
    | .ok nm => .ok (some ⟨"parent", .str nm⟩)
    | .error e => .error e
  | _ => .ok Option.none

/-- `ProcInfo.sorter` (lines 183-185): the sort key tuple
`(username, ppid, terminal, pid)`. -/
def sorter (p : ProcInfo) : List ProcessField :=
  [p.username, p.ppid, p.terminal, p.pid]

/-- The three candidate fields the matcher loop iterates over
(line 303: `"name cmdline0 exe".split()`). -/
inductive CandField where
  | name
  | cmdline0
  | exe
deriving DecidableEq, Repr

def candFieldName : CandField → String
  | .name => "name"
  | .cmdline0 => "cmdline0"
  | .exe => "exe"

def candFields : List CandField := [.name, .cmdline0, .exe]

/-- `getattr(proc, field_name)` for the three candidate field names
(line 305): the stored `name` / `exe` fields, or the `cmdline0`
property. -/
def getCandidate (p : ProcInfo) : CandField → ProcessField
  | .name => p.name
  | .cmdline0 => cmdline0 p
  | .exe => p.exe

/-- The test on line 306:
`not isinstance(field_value, psutil.Error) and field_value is not None`.
`field_value` is the `ProcessField` wrapper object returned by
`getattr`, never the raw value: a `ProcessField` instance is not a
`psutil.Error` instance, and none of the three accessors can return
`None` (each returns a freshly built or stored field object).  The
test therefore always passes, whatever the field's `value` holds. -/
def line306Guard (_fieldObject : ProcessField) : Bool := true

/-- One candidate test of the inner loop (lines 306-308): the guard,
then `matcher_value.search(str(field_value))`.  The compiled pattern's
`search` is abstracted as `pat : String → Bool`. -/
def matchTest (home : String) (pat : String → Bool) (p : ProcInfo)
    (f : CandField) : Bool :=
  line306Guard (getCandidate p f) && pat (fieldStr home (getCandidate p f))

/-- `proc._matched_field = field_name` (line 309). -/
def setTag (p : ProcInfo) (f : CandField) : ProcInfo :=
  { p with matchedField := some (candFieldName f) }

/-- One pass of the matcher loop (lines 304-310) for one field name:
walk the process list; every process not yet matched (in the running
program a process is in `matched_processes` exactly when its
`_matched_field` has been set, since only line 309-310 writes either)
whose field passes the test is tagged in place and appended to the
matched list.  Returns (updated process list, list of newly matched). -/
def passRec (home : String) (pat : String → Bool) (f : CandField) :
    List ProcInfo → List ProcInfo × List ProcInfo
  | [] => ([], [])
  | p :: ps =>
    let rest := passRec home pat f ps
    if p.matchedField.isNone && matchTest home pat p f then
      (setTag p f :: rest.1, setTag p f :: rest.2)
    else
      (p :: rest.1, rest.2)

/-- The full matcher loop (lines 303-313): the three passes in order
`name`, `cmdline0`, `exe`, accumulating `matched_processes` in append
order. -/
def matcherRun (home : String) (pat : String → Bool)
    (procs : List ProcInfo) : List ProcInfo × List ProcInfo :=
  let s1 := passRec home pat .name procs
  let s2 := passRec home pat .cmdline0 s1.1
  let s3 := passRec home pat .exe s2.1
  (s3.1, s1.2 ++ s2.2 ++ s3.2)

/-- `matched_processes` after the matcher loop. -/
def matcherMatched (home : String) (pat : String → Bool)
    (procs : List ProcInfo) : List ProcInfo :=
  (matcherRun home pat procs).2

/-- `re.search` of the compiled escaped literal `v` in `s` (line 297):
equivalent to substring containment of `v` in `s`. -/
def litSearch (v s : String) : Bool :=
  decide (v.toList <:+: s.toList)

/-- Pattern compilation (lines 294-297): a value starting with `/` is
compiled as a regular expression from the remainder (the regex engine
is abstracted as `rx`); anything else is an escaped literal, whose
`search` is substring containment. -/
def compiledSearch (rx : String → String → Bool) (v : String) :
    String → Bool :=
  if v.startsWith "/" then rx (v.drop 1) else litSearch v

/-- Splits a character list at the first `=`, if any: the pieces before
and after it. -/
def splitAtEq : List Char → Option (List Char × List Char)
  | [] => Option.none
  | c :: cs =>
    if c = '=' then some ([], cs)
    else (splitAtEq cs).map (fun pr => (c :: pr.1, pr.2))

/-- Selector parsing (lines 288-292):
`key, _, value = selector.partition("=")`; a falsy (empty) value means
the whole selector is the pattern.  The extracted `key` is dropped —
after line 292 it is never read again. -/
def parseSelector (s : String) : String :=
  match splitAtEq s.toList with
  | some (k, v) => if v.isEmpty then ⟨k⟩ else ⟨v⟩
  | Option.none => s

/-- The matching stage of `main` as a function of the raw selector
string: compile the parsed value, then run the matcher loop. -/
def pipelineMatched (rx : String → String → Bool) (home : String)
    (selector : String) (procs : List ProcInfo) : List ProcInfo :=
  matcherMatched home (compiledSearch rx (parseSelector selector)) procs

/-- The column list of the output table (lines 315-317): a fixed list,
built without consulting the matched set. -/
def tableColumns : List String :=
  ["pid", "parent", "", "name", "cmdline0", "exe", "terminal", "status",
   "username"]

/-- The default field list of `format_row` (line 211). -/
def defaultFields : List String :=
  ["pid", "ppid", "parent_name", "name", "cmdline0", "exe", "terminal",
   "status", "username"]

/-- `getattr(self, field)` for the stored fields and the `cmdline0`
property; `Option.none` for a name with no attribute. -/
def getStoredField (p : ProcInfo) : String → Option ProcessField
  | "pid" => some p.pid
  | "ppid" => some p.ppid
  | "name" => some p.name
  | "cmdline" => some p.cmdline
  | "cmdline0" => some (cmdline0 p)
  | "exe" => some p.exe
  | "terminal" => some p.terminal
  | "status" => some p.status
  | "username" => some p.username
  | _ => Option.none

/-- Python f-string interpolation `{value}` of a raw value. -/
def valFStr : PValue → String
  | .str s => s
  | .int n => toString n
  | .none => "None"
  | .err e => errName e
  | .strList l => pyStrList l

/-- Lines 221-224: wrap the cell in a bold marker when this field is the
record's `_matched_field`. -/
def boldify (p : ProcInfo) (f : String) (cell : String) : String :=
  if p.matchedField = some f then "[bold]" ++ cell else cell

/-- The ways `format_row` can raise: the re-raised `AttributeError`
of lines 215-219 (a `None` attribute value, or an unknown field name),
or a `psutil.Error` escaping the fresh lookup inside `parent_name`,
which `except AttributeError` does not catch. -/
inductive FmtError where
  | attrError (field : String)
  | osError (e : PError)
deriving DecidableEq, Repr

/-- One cell of `format_row` (lines 214-224): resolve the field
(`parent_name` runs its fresh lookup and, when it yields a field, that
field's overridden `format` from line 204 renders `[dim](name)`), call
`format`, and bold the matched field.  A `None` attribute raises
`AttributeError`, re-raised with its note. -/
def formatCell (home : String) (lk : Int → Except PError String)
    (p : ProcInfo) (f : String) : Except FmtError String :=
  if f = "parent_name" then
    match parent_name lk p with
    | .error e => .error (.osError e)
    | .ok (some fld) => .ok (boldify p f ("[dim](" ++ valFStr fld.value ++ ")"))
    | .ok Option.none => .error (.attrError f)
  else
    match getStoredField p f with
    | some fld => .ok (boldify p f (fieldFormat home fld))
    | Option.none => .error (.attrError f)

/-- `ProcInfo.format_row` (lines 209-226): an empty (falsy) `fields`
argument selects the default list; each requested field is formatted in
order, the first failure aborting the row. -/
def format_row (home : String) (lk : Int → Except PError String)
    (p : ProcInfo) (fields : List String) : Except FmtError (List String) :=
  let fs := if fields.isEmpty then defaultFields else fields
  fs.mapM (formatCell home lk p)

/-- Stable insertion of `x` into an already sorted accumulator, using
only the `<` comparison exactly as CPython's stable sort does: `x` goes
before the first element `y` with `x < y`, hence after every element it
compares equal to.  A `TypeError` from the comparison aborts the sort.
On a two-element list this performs the single comparison
`lt l[1] l[0]`, exactly as CPython's sort does. -/
def insortPy (lt : ProcInfo → ProcInfo → Except Unit Bool)
    (x : ProcInfo) : List ProcInfo → Except Unit (List ProcInfo)
  | [] => .ok [x]
  | y :: ys => do
    let b ← lt x y
    if b then pure (x :: y :: ys)
    else do
      let rest ← insortPy lt x ys
      pure (y :: rest)

/-- `sorted(matched_processes, key=ProcInfo.sorter)` (line 320),
modelled as the stable insertion sort with the key comparison
`tupleLt (sorter a) (sorter b)`: elements are folded in input order
into a sorted accumulator.  On inputs whose needed comparisons are all
defined this yields the unique stable sort, agreeing with CPython. -/
def sortPy (lt : ProcInfo → ProcInfo → Except Unit Bool)
    (l : List ProcInfo) : Except Unit (List ProcInfo) :=
  l.foldlM (fun acc x => insortPy lt x acc) []

/-- The comparison `ProcInfo.sorter` induces: key tuple `<` key tuple. -/
def procLt (a b : ProcInfo) : Except Unit Bool :=
  tupleLt (sorter a) (sorter b)

/-- Tests whether a value is a present string. -/
def isStrV : PValue → Bool
  | .str _ => true
  | _ => false

/-- Tests whether a value is a present int. -/
def isIntV : PValue → Bool
  | .int _ => true
  | _ => false

/-- A record whose four sort-key fields carry their canonical names and
hold actual comparable values: string owner, int parent pid, string
terminal, int pid.  Every record `from_process` builds has the canonical
names; the value side fails exactly when an attribute read failed or the
terminal was `None`. -/
def isClean (p : ProcInfo) : Bool :=
  p.username.name == "username" && isStrV p.username.value &&
  p.ppid.name == "ppid" && isIntV p.ppid.value &&
  p.terminal.name == "terminal" && isStrV p.terminal.value &&
  p.pid.name == "pid" && isIntV p.pid.value

def valStrD : PValue → String
  | .str s => s
  | _ => ""

def valIntD : PValue → Int
  | .int n => n
  | _ => 0

/-- The sort key of a clean record, as a lexicographic product:
(owner, parent pid, terminal, pid). -/
abbrev SortKey := String ×ₗ Int ×ₗ String ×ₗ Int

def extractKey (p : ProcInfo) : SortKey :=
  toLex (valStrD p.username.value,
    toLex (valIntD p.ppid.value,
      toLex (valStrD p.terminal.value, valIntD p.pid.value)))

/-- Pure stable insertion by the clean-record key order; the shape
`insortPy` takes on records whose comparisons are all defined. -/
def insortB (x : ProcInfo) : List ProcInfo → List ProcInfo
  | [] => [x]
  | y :: ys =>
    if extractKey x < extractKey y then x :: y :: ys else y :: insortB x ys

/-- Pure stable sort by the clean-record key order. -/
def sortB (l : List ProcInfo) : List ProcInfo :=
  l.foldl (fun acc x => insortB x acc) []

/-- The first candidate field, in the fixed order `name`, `cmdline0`,
`exe`, whose test passes for this record. -/
def firstMatch (home : String) (pat : String → Bool) (p : ProcInfo) :
    Option CandField :=
  candFields.find? (matchTest home pat p)

/-- A process every one of whose attribute reads raised `AccessDenied`
(a fully permission-protected process): each candidate field's value is
a captured failure. -/
def badReads : AttrReads where
  pid := 4242
  name := .error .accessDenied
  ppid := .error .accessDenied
  cmdline := .error .accessDenied
  exe := .error .accessDenied
  terminal := .error .accessDenied
  status := .error .accessDenied
  username := .error .accessDenied

/-- A process whose parent-pid read raised `AccessDenied` but whose
other reads succeeded. -/
def ppidFailReads : AttrReads where
  pid := 77
  name := .ok "nginx"
  ppid := .error .accessDenied
  cmdline := .ok ["nginx", "-g", "daemon off;"]
  exe := .ok "/usr/sbin/nginx"
  terminal := .ok Option.none
  status := .ok "sleeping"
  username := .ok "www-data"

/-- A process all of whose reads succeeded. -/
def okReads : AttrReads where
  pid := 100
  name := .ok "sshd"
  ppid := .ok 1
  cmdline := .ok ["sshd", "-D"]
  exe := .ok "/usr/sbin/sshd"
  terminal := .ok (some "/dev/pts/1")
  status := .ok "running"
  username := .ok "root"

/-- A second fully readable process, distinct pid and owner. -/
def okReads2 : AttrReads where
  pid := 101
  name := .ok "ssh-agent"
  ppid := .ok 1
  cmdline := .ok ["ssh-agent"]
  exe := .ok "/usr/bin/ssh-agent"
  terminal := .ok (some "/dev/pts/2")
  status := .ok "running"
  username := .ok "alice"

/-- A fresh-lookup oracle that always fails: the parent process has
already exited when `psutil.Process(ppid)` runs. -/
def lkNSP : Int → Except PError String := fun _ => .error .noSuchProcess

/-- A fresh-lookup oracle that succeeds with a fixed parent name. -/
def lkInit : Int → Except PError String := fun _ => .ok "systemd"

/-- A regex engine stub for selectors that never use the `/` regex
branch. -/
def rxNone : String → String → Bool := fun _ _ => false

theorem isStrV_iff (v : PValue) : isStrV v = true ↔ ∃ s, v = PValue.str s := by
  cases v <;> simp [isStrV]

theorem isIntV_iff (v : PValue) : isIntV v = true ↔ ∃ n, v = PValue.int n := by
  cases v <;> simp [isIntV]

/-- C4 counterexample: comparing a failure-valued Field against a
value-holding Field raises `TypeError` (modelled `Except.error`), so
Field comparison is not a total, never-crashing order. -/
theorem fieldLt_err_crashes :
    fieldLt ⟨"username", PValue.err PError.accessDenied⟩
        ⟨"username", PValue.str "root"⟩ = Except.error () := rfl

/-- C4 (amended): Field comparison delegates to Python `<` on the two
underlying values: it is defined and deterministic when both values are
ints or both are strings, and raises `TypeError` whenever either side
holds a captured failure. -/
theorem fieldLt_defined_cases (f g : ProcessField) :
    (∀ a b, f.value = PValue.int a → g.value = PValue.int b →
       fieldLt f g = Except.ok (decide (a < b))) ∧
    (∀ s t, f.value = PValue.str s → g.value = PValue.str t →
       fieldLt f g = Except.ok (decide (s < t))) ∧
    (∀ e, f.value = PValue.err e → fieldLt f g = Except.error ()) ∧
    (∀ e, g.value = PValue.err e → fieldLt f g = Except.error ()) := by
  refine ⟨?_, ?_, ?_, ?_⟩
  · intro a b ha hb; simp [fieldLt, ha, hb, pyLtV]
  · intro s t hs ht; simp [fieldLt, hs, ht, pyLtV]
  · intro e he; cases hg : g.value <;> simp [fieldLt, he, hg, pyLtV]
  · intro e he; cases hf : f.value <;> simp [fieldLt, hf, he, pyLtV]

/-- C4 witness: the amended comparison at concrete fields. -/
theorem fieldLt_defined_cases_witness :
    (⟨"pid", PValue.int 3⟩ : ProcessField).value = PValue.int 3 ∧
    fieldLt ⟨"pid", PValue.int 3⟩ ⟨"pid", PValue.int 5⟩
        = Except.ok (decide ((3 : Int) < 5)) :=
  ⟨rfl, (fieldLt_defined_cases ⟨"pid", PValue.int 3⟩ ⟨"pid", PValue.int 5⟩).1 3 5 rfl rfl⟩

/-- C5 counterexample: for a matched set with exactly one distinct owner
value the owner column is still present, because the column list is a
fixed literal; so the column set is not conditional on the owner
count. -/
theorem owner_column_not_conditional :
    ¬ (("username" ∈ tableColumns) ↔
        2 ≤ (List.dedup (List.map (fun p => p.username.value)
              [from_process okReads])).length) := by
  decide

/-- C5 (amended): the rendered table always includes the owner
(`username`) column: the column list of lines 315-317 is fixed and never
consults the matched set. -/
theorem owner_column_always_present : "username" ∈ tableColumns := by
  decide

/-- C6 counterexample: the executable-path field's display string does
not abbreviate a home-directory prefix; only `Cmdline0Field` overrides
`__str__` with `abbrev_home`. -/
theorem exe_display_not_abbreviated :
    fieldStr "/home/alice" ⟨"exe", PValue.str "/home/alice/bin/tool"⟩
        = "/home/alice/bin/tool" ∧
    fieldStr "/home/alice" ⟨"exe", PValue.str "/home/alice/bin/tool"⟩
        ≠ "~/bin/tool" := by
  constructor
  · rfl
  · decide

theorem toList_ne_nil_of_ne_empty {s : String} (h : s ≠ "") :
    s.toList ≠ [] := by
  intro hnil
  apply h
  cases s with
  | mk data => cases data with
    | nil => rfl
    | cons c cs => simp [String.toList] at hnil

/-- C6 (amended): for a nonempty home-directory path, the
first-command-line-token field's display replaces a leading
home-directory prefix with `~` and leaves a value without that prefix
unchanged; the executable-path field's display is always the raw value,
with no home abbreviation. -/
theorem cmdline0_display_abbreviates (home v : String) (h : home ≠ "") :
    fieldStr home ⟨"cmdline0", PValue.str v⟩
        = (if home.toList.isPrefixOf v.toList
           then (⟨'~' :: v.toList.drop home.toList.length⟩ : String)
           else v) ∧
    fieldStr home ⟨"exe", PValue.str v⟩ = v := by
  constructor
  · show abbrev_home home v = _
    by_cases hp : home.toList.isPrefixOf v.toList
    · have hpre : home.toList <+: v.toList :=
        (List.isPrefixOf_iff_prefix).mp hp
      have hlen : home.toList.length ≤ v.toList.length := hpre.length_le
      have hne : home.toList.length ≠ 0 := by
        intro h0
        exact toList_ne_nil_of_ne_empty h (List.eq_nil_of_length_eq_zero h0)
      have hdrop : v.toList.drop home.toList.length ≠ v.toList := by
        intro heq
        have hl := congrArg List.length heq
        rw [List.length_drop] at hl
        omega
      have hpre' : home.data <+: v.data := hpre
      have hdrop' : List.drop home.length v.data ≠ v.data := hdrop
      simp [abbrev_home, hpre', hdrop']
    · have hnp : ¬ home.data <+: v.data := fun hh =>
        hp ((List.isPrefixOf_iff_prefix).mpr hh)
      simp [abbrev_home, hnp]
  · rfl

/-- C6 witness: the amended display rule at home `/home/alice`, value
`/home/alice/bin/tool`. -/
theorem cmdline0_display_abbreviates_witness :
    ("/home/alice" ≠ "") ∧
    (fieldStr "/home/alice" ⟨"cmdline0", PValue.str "/home/alice/bin/tool"⟩
        = (if "/home/alice".toList.isPrefixOf "/home/alice/bin/tool".toList
           then (⟨'~' :: "/home/alice/bin/tool".toList.drop
                    "/home/alice".toList.length⟩ : String)
           else "/home/alice/bin/tool") ∧
     fieldStr "/home/alice" ⟨"exe", PValue.str "/home/alice/bin/tool"⟩
        = "/home/alice/bin/tool") :=
  ⟨by decide, cmdline0_display_abbreviates "/home/alice" "/home/alice/bin/tool"
      (by decide)⟩

/-- C7 counterexample: with a valid integer parent pid whose fresh
lookup fails, `parent_name` raises the failure instead of returning a
Field wrapping it; and with a failure-valued parent pid it returns
`None`, not a Field propagating the failure. -/
theorem parent_name_counterexample :
    parent_name lkNSP (from_process okReads)
        = Except.error PError.noSuchProcess ∧
    parent_name lkNSP (from_process ppidFailReads) = Except.ok Option.none :=
  ⟨rfl, rfl⟩

/-- C7 (amended): with a valid integer parent pid, `parent_name`
returns a Field wrapping the freshly looked-up name when the lookup
succeeds and raises the failure when the lookup fails; with a
failure-valued parent pid it returns the absent value `None`. -/
theorem parent_name_behavior (lk : Int → Except PError String) (p : ProcInfo) :
    (∀ k, p.ppid.value = PValue.int k →
      ((∀ nm, lk k = Except.ok nm →
          parent_name lk p = Except.ok (some ⟨"parent", PValue.str nm⟩)) ∧
       (∀ e, lk k = Except.error e → parent_name lk p = Except.error e))) ∧
    (∀ e, p.ppid.value = PValue.err e →
      parent_name lk p = Except.ok Option.none) := by
  constructor
  · intro k hk
    constructor
    · intro nm hnm; simp [parent_name, hk, hnm]
    · intro e he; simp [parent_name, hk, he]
  · intro e he; simp [parent_name, he]

/-- C7 witness: the amended behavior at a concrete record and a
succeeding lookup. -/
theorem parent_name_behavior_witness :
    (from_process okReads).ppid.value = PValue.int 1 ∧
    lkInit 1 = Except.ok "systemd" ∧
    parent_name lkInit (from_process okReads)
        = Except.ok (some ⟨"parent", PValue.str "systemd"⟩) :=
  ⟨rfl, rfl,
    ((parent_name_behavior lkInit (from_process okReads)).1 1 rfl).1
      "systemd" rfl⟩

/-- C9: `cmdline0` wraps the first token of a non-empty command line,
the absent value for an empty command line, and propagates the command
line's own captured failure otherwise. -/
theorem cmdline0_cases (p : ProcInfo) :
    (∀ c cs, p.cmdline.value = PValue.strList (c :: cs) →
       cmdline0 p = ⟨"cmdline0", PValue.str c⟩) ∧
    (p.cmdline.value = PValue.strList [] →
       cmdline0 p = ⟨"cmdline0", PValue.none⟩) ∧
    (∀ e, p.cmdline.value = PValue.err e →
       cmdline0 p = ⟨"cmdline0", PValue.err e⟩) := by
  refine ⟨?_, ?_, ?_⟩
  · intro c cs hc; simp [cmdline0, hc]
  · intro hc; simp [cmdline0, hc]
  · intro e he; simp [cmdline0, he]

/-- C9 witness: the three cases at concrete records. -/
theorem cmdline0_cases_witness :
    (from_process okReads).cmdline.value = PValue.strList ["sshd", "-D"] ∧
    cmdline0 (from_process okReads) = ⟨"cmdline0", PValue.str "sshd"⟩ ∧
    (from_process badReads).cmdline.value
        = PValue.err PError.accessDenied ∧
    cmdline0 (from_process badReads)
        = ⟨"cmdline0", PValue.err PError.accessDenied⟩ :=
  ⟨rfl,
   (cmdline0_cases (from_process okReads)).1 "sshd" ["-D"] rfl,
   rfl,
   (cmdline0_cases (from_process badReads)).2.2 PError.accessDenied rfl⟩

theorem splitAtEq_append (k v : List Char) (hk : '=' ∉ k) :
    splitAtEq (k ++ '=' :: v) = some (k, v) := by
  induction k with
  | nil => simp [splitAtEq]
  | cons c cs ih =>
    have hc : c ≠ '=' := fun h => hk (by simp [h])
    have hcs : '=' ∉ cs := fun h => hk (List.mem_cons_of_mem _ h)
    simp [splitAtEq, hc, ih hcs]

theorem splitAtEq_none (l : List Char) (h : '=' ∉ l) :
    splitAtEq l = Option.none := by
  induction l with
  | nil => rfl
  | cons c cs ih =>
    have hc : c ≠ '=' := fun hh => h (by simp [hh])
    have hcs : '=' ∉ cs := fun hh => h (List.mem_cons_of_mem _ hh)
    simp [splitAtEq, hc, ih hcs]

theorem parseSelector_keyed (field pattern : String)
    (hf : '=' ∉ field.toList) (hp : pattern ≠ "") :
    parseSelector (field ++ "=" ++ pattern) = pattern := by
  have hdata : (field ++ "=" ++ pattern).toList
      = field.toList ++ '=' :: pattern.toList := by
    show (field ++ "=" ++ pattern).data = field.data ++ '=' :: pattern.data
    rw [String.data_append, String.data_append, List.append_assoc]
    rfl
  have hne : pattern.toList ≠ [] := toList_ne_nil_of_ne_empty hp
  rw [parseSelector, hdata, splitAtEq_append _ _ hf]
  have : pattern.toList.isEmpty = false := by
    cases hpt : pattern.toList with
    | nil => exact absurd hpt hne
    | cons c cs => rfl
  simp only [this]
  rfl

theorem parseSelector_bare (pattern : String) (hp : '=' ∉ pattern.toList) :
    parseSelector pattern = pattern := by
  rw [parseSelector, splitAtEq_none _ hp]

/-- C10: for a selector of the form `field=pattern`, the extracted key
is never consulted: the matching stage equals running the matcher on the
fixed candidate fields with the compiled pattern part alone, and (when
the pattern itself contains no `=`) is identical to the bare-pattern
selector's matching stage. -/
theorem selector_key_ignored (rx : String → String → Bool) (home : String)
    (field pattern : String) (procs : List ProcInfo)
    (hf : '=' ∉ field.toList) (hp : pattern ≠ "") :
    pipelineMatched rx home (field ++ "=" ++ pattern) procs
        = matcherMatched home (compiledSearch rx pattern) procs ∧
    ('=' ∉ pattern.toList →
      pipelineMatched rx home (field ++ "=" ++ pattern) procs
          = pipelineMatched rx home pattern procs) := by
  constructor
  · rw [pipelineMatched, parseSelector_keyed field pattern hf hp]
  · intro hpe
    rw [pipelineMatched, pipelineMatched,
      parseSelector_keyed field pattern hf hp, parseSelector_bare pattern hpe]

/-- C10 witness: `name=ssh` matches exactly as bare `ssh`. -/
theorem selector_key_ignored_witness :
    ('=' ∉ "name".toList) ∧ ("ssh" ≠ "") ∧
    (pipelineMatched rxNone "" ("name" ++ "=" ++ "ssh")
          [from_process okReads]
        = matcherMatched "" (compiledSearch rxNone "ssh")
          [from_process okReads] ∧
     ('=' ∉ "ssh".toList →
       pipelineMatched rxNone "" ("name" ++ "=" ++ "ssh")
           [from_process okReads]
         = pipelineMatched rxNone "" "ssh" [from_process okReads])) :=
  ⟨by decide, by decide,
    selector_key_ignored rxNone "" "name" "ssh" [from_process okReads]
      (by decide) (by decide)⟩

theorem countP_congr_mem {α : Type} (l : List α) (p q : α → Bool)
    (h : ∀ x ∈ l, p x = q x) : l.countP p = l.countP q := by
  induction l with
  | nil => rfl
  | cons a as ih =>
    rw [List.countP_cons, List.countP_cons, h a (by simp),
      ih (fun x hx => h x (by simp [hx]))]

theorem matchTest_eq (home : String) (pat : String → Bool) (p : ProcInfo)
    (f : CandField) :
    matchTest home pat p f = pat (fieldStr home (getCandidate p f)) := by
  simp [matchTest, line306Guard]

theorem getCandidate_setTag (p : ProcInfo) (g f : CandField) :
    getCandidate (setTag p g) f = getCandidate p f := by
  cases f <;> rfl

theorem matchTest_setTag (home : String) (pat : String → Bool)
    (p : ProcInfo) (g f : CandField) :
    matchTest home pat (setTag p g) f = matchTest home pat p f := by
  simp [matchTest, getCandidate_setTag]

theorem candFieldName_inj (g f : CandField)
    (h : candFieldName g = candFieldName f) : g = f := by
  cases g <;> cases f <;> first | rfl | simp [candFieldName] at h

theorem setTag_inj (q p : ProcInfo) (g f : CandField)
    (hq : q.matchedField = Option.none) (hp : p.matchedField = Option.none)
    (he : setTag q g = setTag p f) : q = p ∧ g = f := by
  have hg : g = f := by
    have hm := congrArg ProcInfo.matchedField he
    simp only [setTag, Option.some.injEq] at hm
    exact candFieldName_inj g f hm
  subst hg
  refine ⟨?_, rfl⟩
  cases q with
  | mk q1 q2 q3 q4 q5 q6 q7 q8 qm =>
    cases p with
    | mk p1 p2 p3 p4 p5 p6 p7 p8 pm =>
      simp only [setTag, ProcInfo.mk.injEq] at he
      simp only [ProcInfo.matchedField] at hq hp
      subst hq
      subst hp
      simp_all

theorem passRec_fst (home : String) (pat : String → Bool) (f : CandField)
    (l : List ProcInfo) :
    (passRec home pat f l).1
      = l.map (fun p =>
          if p.matchedField.isNone && matchTest home pat p f
          then setTag p f else p) := by
  induction l with
  | nil => rfl
  | cons p ps ih =>
    simp only [passRec, List.map_cons]
    by_cases hc : (p.matchedField.isNone && matchTest home pat p f) = true
    · simp only [if_pos hc, ih]
    · simp only [if_neg hc, ih]

theorem passRec_snd (home : String) (pat : String → Bool) (f : CandField)
    (l : List ProcInfo) :
    (passRec home pat f l).2
      = (l.filter (fun p =>
          p.matchedField.isNone && matchTest home pat p f)).map
          (fun p => setTag p f) := by
  induction l with
  | nil => rfl
  | cons p ps ih =>
    simp only [passRec, List.filter_cons]
    by_cases hc : (p.matchedField.isNone && matchTest home pat p f) = true
    · simp only [if_pos hc, hc, if_true, List.map_cons, ih]
    · simp only [if_neg hc, hc, if_false, ih]
      simp

theorem firstMatch_unfold (home : String) (pat : String → Bool)
    (p : ProcInfo) :
    firstMatch home pat p
      = (if matchTest home pat p CandField.name then some CandField.name
         else if matchTest home pat p CandField.cmdline0
           then some CandField.cmdline0
         else if matchTest home pat p CandField.exe then some CandField.exe
         else Option.none) := by
  rw [firstMatch, candFields]
  cases h1 : matchTest home pat p CandField.name <;>
    cases h2 : matchTest home pat p CandField.cmdline0 <;>
      cases h3 : matchTest home pat p CandField.exe <;>
        simp [List.find?, h1, h2, h3]

theorem firstMatch_eq_name (home : String) (pat : String → Bool)
    (p : ProcInfo) :
    (firstMatch home pat p == some CandField.name)
      = matchTest home pat p CandField.name := by
  rw [firstMatch_unfold]
  cases h1 : matchTest home pat p CandField.name <;>
    cases h2 : matchTest home pat p CandField.cmdline0 <;>
      cases h3 : matchTest home pat p CandField.exe <;> simp [h1, h2, h3]

theorem firstMatch_eq_cl0 (home : String) (pat : String → Bool)
    (p : ProcInfo) :
    (firstMatch home pat p == some CandField.cmdline0)
      = (!matchTest home pat p CandField.name
          && matchTest home pat p CandField.cmdline0) := by
  rw [firstMatch_unfold]
  cases h1 : matchTest home pat p CandField.name <;>
    cases h2 : matchTest home pat p CandField.cmdline0 <;>
      cases h3 : matchTest home pat p CandField.exe <;> simp [h1, h2, h3]

theorem firstMatch_eq_exe (home : String) (pat : String → Bool)
    (p : ProcInfo) :
    (firstMatch home pat p == some CandField.exe)
      = (!matchTest home pat p CandField.name
          && !matchTest home pat p CandField.cmdline0
          && matchTest home pat p CandField.exe) := by
  rw [firstMatch_unfold]
  cases h1 : matchTest home pat p CandField.name <;>
    cases h2 : matchTest home pat p CandField.cmdline0 <;>
      cases h3 : matchTest home pat p CandField.exe <;> simp [h1, h2, h3]

theorem matcher_chunk1 (home : String) (pat : String → Bool)
    (procs : List ProcInfo)
    (h : ∀ p ∈ procs, p.matchedField = Option.none) :
    (passRec home pat CandField.name procs).2
      = (procs.filter (fun p =>
            firstMatch home pat p == some CandField.name)).map
          (fun p => setTag p CandField.name) := by
  rw [passRec_snd]
  congr 1
  apply List.filter_congr
  intro p hp
  rw [firstMatch_eq_name]
  simp [h p hp]

theorem setTag_matchedField (p : ProcInfo) (f : CandField) :
    (setTag p f).matchedField = some (candFieldName f) := rfl

theorem matcher_chunk2 (home : String) (pat : String → Bool)
    (procs : List ProcInfo)
    (h : ∀ p ∈ procs, p.matchedField = Option.none) :
    (passRec home pat CandField.cmdline0
        (passRec home pat CandField.name procs).1).2
      = (procs.filter (fun p =>
            firstMatch home pat p == some CandField.cmdline0)).map
          (fun p => setTag p CandField.cmdline0) := by
  rw [passRec_snd, passRec_fst]
  induction procs with
  | nil => rfl
  | cons p ps ih =>
    have hnone : p.matchedField = Option.none := h p (by simp)
    have ihs := ih (fun q hq => h q (by simp [hq]))
    by_cases ht1 : matchTest home pat p CandField.name = true
    · have hc2 : (firstMatch home pat p == some CandField.cmdline0) = false := by
        rw [firstMatch_eq_cl0, ht1]; simp
      simp only [List.map_cons, List.filter_cons, hnone, Option.isNone_none,
        ht1, Bool.true_and, setTag_matchedField, Option.isNone_some,
        Bool.false_and, hc2, eq_self_iff_true, Bool.false_eq_true, if_true,
        if_false]
      exact ihs
    · have ht1f : matchTest home pat p CandField.name = false := by
        simpa using ht1
      by_cases ht2 : matchTest home pat p CandField.cmdline0 = true
      · have hc2 : (firstMatch home pat p == some CandField.cmdline0)
            = true := by
          rw [firstMatch_eq_cl0, ht1f, ht2]; simp
        simp only [List.map_cons, List.filter_cons, hnone, Option.isNone_none,
          ht1f, Bool.true_and, Bool.and_false, ht2, hc2, eq_self_iff_true,
          Bool.false_eq_true, if_true, if_false]
        rw [ihs]
      · have ht2f : matchTest home pat p CandField.cmdline0 = false := by
          simpa using ht2
        have hc2 : (firstMatch home pat p == some CandField.cmdline0)
            = false := by
          rw [firstMatch_eq_cl0, ht1f, ht2f]; simp
        simp only [List.map_cons, List.filter_cons, hnone, Option.isNone_none,
          ht1f, Bool.true_and, ht2f, hc2, eq_self_iff_true, Bool.false_eq_true,
          if_true, if_false]
        exact ihs

theorem matcher_chunk3 (home : String) (pat : String → Bool)
    (procs : List ProcInfo)
    (h : ∀ p ∈ procs, p.matchedField = Option.none) :
    (passRec home pat CandField.exe
        (passRec home pat CandField.cmdline0
          (passRec home pat CandField.name procs).1).1).2
      = (procs.filter (fun p =>
            firstMatch home pat p == some CandField.exe)).map
          (fun p => setTag p CandField.exe) := by
  rw [passRec_snd, passRec_fst, passRec_fst]
  induction procs with
  | nil => rfl
  | cons p ps ih =>
    have hnone : p.matchedField = Option.none := h p (by simp)
    have ihs := ih (fun q hq => h q (by simp [hq]))
    by_cases ht1 : matchTest home pat p CandField.name = true
    · have hc3 : (firstMatch home pat p == some CandField.exe) = false := by
        rw [firstMatch_eq_exe, ht1]; simp
      simp only [List.map_cons, List.filter_cons, hnone, Option.isNone_none,
        ht1, Bool.true_and, setTag_matchedField, Option.isNone_some,
        Bool.false_and, hc3, eq_self_iff_true, Bool.false_eq_true, if_true,
        if_false]
      exact ihs
    · have ht1f : matchTest home pat p CandField.name = false := by
        simpa using ht1
      by_cases ht2 : matchTest home pat p CandField.cmdline0 = true
      · have hc3 : (firstMatch home pat p == some CandField.exe) = false := by
          rw [firstMatch_eq_exe, ht1f, ht2]; simp
        simp only [List.map_cons, List.filter_cons, hnone, Option.isNone_none,
          ht1f, Bool.true_and, ht2, setTag_matchedField, Option.isNone_some,
          Bool.false_and, hc3, eq_self_iff_true, Bool.false_eq_true, if_true,
          if_false]
        exact ihs
      · have ht2f : matchTest home pat p CandField.cmdline0 = false := by
          simpa using ht2
        by_cases ht3 : matchTest home pat p CandField.exe = true
        · have hc3 : (firstMatch home pat p == some CandField.exe) = true := by
            rw [firstMatch_eq_exe, ht1f, ht2f, ht3]; simp
          simp only [List.map_cons, List.filter_cons, hnone, Option.isNone_none,
            ht1f, Bool.true_and, ht2f, ht3, hc3, eq_self_iff_true,
            Bool.false_eq_true, if_true, if_false]
          rw [ihs]
        · have ht3f : matchTest home pat p CandField.exe = false := by
            simpa using ht3
          have hc3 : (firstMatch home pat p == some CandField.exe)
              = false := by
            rw [firstMatch_eq_exe, ht1f, ht2f, ht3f]; simp
          simp only [List.map_cons, List.filter_cons, hnone, Option.isNone_none,
            ht1f, Bool.true_and, ht2f, ht3f, hc3, eq_self_iff_true,
            Bool.false_eq_true, if_true, if_false]
          exact ihs

/-- The matcher loop's output, characterised record by record: on a
snapshot of untagged records, `matched_processes` consists of the
`name`-first-matched records in snapshot order, then the
`cmdline0`-first-matched, then the `exe`-first-matched, each tagged with
its first matching field. -/
theorem matcherMatched_eq (home : String) (pat : String → Bool)
    (procs : List ProcInfo)
    (h : ∀ p ∈ procs, p.matchedField = Option.none) :
    matcherMatched home pat procs
      = (procs.filter (fun p =>
            firstMatch home pat p == some CandField.name)).map
          (fun p => setTag p CandField.name)
        ++ (procs.filter (fun p =>
            firstMatch home pat p == some CandField.cmdline0)).map
          (fun p => setTag p CandField.cmdline0)
        ++ (procs.filter (fun p =>
            firstMatch home pat p == some CandField.exe)).map
          (fun p => setTag p CandField.exe) := by
  show (passRec home pat CandField.name procs).2
      ++ (passRec home pat CandField.cmdline0
            (passRec home pat CandField.name procs).1).2
      ++ (passRec home pat CandField.exe
            (passRec home pat CandField.cmdline0
              (passRec home pat CandField.name procs).1).1).2 = _
  rw [matcher_chunk1 home pat procs h, matcher_chunk2 home pat procs h,
    matcher_chunk3 home pat procs h]

/-- C1: the code violates the claim.  The guard on line 306 tests the
`ProcessField` wrapper object, never its stored value, so it always
passes; a record every one of whose candidate fields is a captured
failure is still matched — here by the empty pattern against the
display string `AccessDenied` of the failed `name` field — and tagged
`name`, instead of being excluded from the matched set. -/
theorem failure_record_matches_empty_pattern :
    matcherMatched "" (compiledSearch rxNone (parseSelector ""))
        [from_process badReads]
      = [setTag (from_process badReads) CandField.name] := by
  decide

/-- C2: on a snapshot of untagged records with pairwise distinct pids,
every record one of whose candidate display strings the pattern
matches appears exactly once in `matched_processes`, tagged with the
first field in the order `name`, `cmdline0`, `exe` whose display
string matches; no variant of the record tagged with any later (or
other) field ever appears. -/
theorem matcher_first_match_once (home : String) (pat : String → Bool)
    (procs : List ProcInfo) (p : ProcInfo)
    (hnone : ∀ q ∈ procs, q.matchedField = Option.none)
    (hpid : procs.Pairwise (fun a b => a.pid.value ≠ b.pid.value))
    (hp : p ∈ procs)
    (hmatch : ∃ f ∈ candFields, pat (fieldStr home (getCandidate p f)) = true) :
    ∃ f, firstMatch home pat p = some f ∧
      candFields.find? (fun g => pat (fieldStr home (getCandidate p g)))
        = some f ∧
      (matcherMatched home pat procs).count (setTag p f) = 1 ∧
      ∀ g : CandField, g ≠ f → setTag p g ∉ matcherMatched home pat procs := by
  have hff : candFields.find? (fun g => pat (fieldStr home (getCandidate p g)))
      = firstMatch home pat p := rfl
  have hnd : procs.Nodup :=
    hpid.imp (fun {a b} hab heq => hab (by rw [heq]))
  obtain ⟨f0, hf0mem, hf0⟩ := hmatch
  have hex : (firstMatch home pat p).isSome := by
    rw [firstMatch]
    rw [List.find?_isSome]
    exact ⟨f0, hf0mem, by rw [matchTest_eq]; exact hf0⟩
  obtain ⟨f, hf⟩ := Option.isSome_iff_exists.mp hex
  have hcount : ∀ g : CandField,
      ((procs.filter (fun q => firstMatch home pat q == some g)).map
          (fun q => setTag q g)).count (setTag p f)
        = if g = f then 1 else 0 := by
    intro g
    rw [List.count, List.countP_map, List.countP_filter]
    by_cases hgf : g = f
    · rw [if_pos hgf]
      have hpw : ∀ q ∈ procs,
          ((setTag q g == setTag p f) &&
            (firstMatch home pat q == some g)) = (q == p) := by
        intro q hq
        by_cases hqp : q = p
        · simp [hqp, hgf, hf]
        · have hne : setTag q g ≠ setTag p f := by
            intro he
            exact hqp (setTag_inj q p g f (hnone q hq) (hnone p hp) he).1
          have h1 : (setTag q g == setTag p f) = false :=
            beq_eq_false_iff_ne.mpr hne
          have h2 : (q == p) = false := beq_eq_false_iff_ne.mpr hqp
          simp [h1, h2]
      rw [countP_congr_mem procs _ _ (by
        intro x hx
        exact hpw x hx)]
      exact List.count_eq_one_of_mem hnd hp
    · rw [if_neg hgf]
      have hpw : ∀ q ∈ procs,
          ((setTag q g == setTag p f) &&
            (firstMatch home pat q == some g)) = false := by
        intro q hq
        have hne : setTag q g ≠ setTag p f := by
          intro he
          exact hgf (setTag_inj q p g f (hnone q hq) (hnone p hp) he).2
        simp [hne]
      rw [countP_congr_mem procs _ _ (by
        intro x hx
        exact hpw x hx)]
      simp
  refine ⟨f, hf, hff.trans hf, ?_, ?_⟩
  · rw [matcherMatched_eq home pat procs hnone, List.count_append,
      List.count_append, hcount CandField.name, hcount CandField.cmdline0,
      hcount CandField.exe]
    cases f <;> simp
  · intro g hgf hmem
    rw [matcherMatched_eq home pat procs hnone] at hmem
    have hcase : ∀ gc : CandField,
        setTag p g ∈ (procs.filter (fun q =>
            firstMatch home pat q == some gc)).map (fun q => setTag q gc) →
        False := by
      intro gc hin
      obtain ⟨q, hqf, hqe⟩ := List.mem_map.mp hin
      have hqprocs : q ∈ procs := List.mem_of_mem_filter hqf
      have hqpred := List.of_mem_filter hqf
      obtain ⟨hqp, hgcg⟩ :=
        setTag_inj q p gc g (hnone q hqprocs) (hnone p hp) hqe
      rw [hqp, hf] at hqpred
      have hfg : f = gc := by simpa using hqpred
      exact hgf (hfg.trans hgcg).symm
    rcases List.mem_append.mp hmem with hmem' | hmem3
    · rcases List.mem_append.mp hmem' with hmem1 | hmem2
      · exact hcase CandField.name hmem1
      · exact hcase CandField.cmdline0 hmem2
    · exact hcase CandField.exe hmem3

/-- C2 witness: the pattern `ssh` on a two-record snapshot. -/
theorem matcher_first_match_once_witness :
    (∀ q ∈ [from_process okReads, from_process okReads2],
        q.matchedField = Option.none) ∧
    ([from_process okReads, from_process okReads2].Pairwise
        (fun a b => a.pid.value ≠ b.pid.value)) ∧
    (from_process okReads ∈ [from_process okReads, from_process okReads2]) ∧
    (∃ f ∈ candFields,
        litSearch "ssh"
          (fieldStr "" (getCandidate (from_process okReads) f)) = true) ∧
    (∃ f, firstMatch "" (litSearch "ssh") (from_process okReads) = some f ∧
      candFields.find? (fun g => litSearch "ssh"
          (fieldStr "" (getCandidate (from_process okReads) g))) = some f ∧
      (matcherMatched "" (litSearch "ssh")
          [from_process okReads, from_process okReads2]).count
        (setTag (from_process okReads) f) = 1 ∧
      ∀ g : CandField, g ≠ f →
        setTag (from_process okReads) g ∉
          matcherMatched "" (litSearch "ssh")
            [from_process okReads, from_process okReads2]) :=
  ⟨by decide, by decide, by decide, by decide,
   matcher_first_match_once "" (litSearch "ssh")
     [from_process okReads, from_process okReads2] (from_process okReads)
     (by decide) (by decide) (by decide) (by decide)⟩

/-- C3 counterexample: a record whose parent-pid read failed cannot be
rendered: `parent_name` returns `None` for the non-int ppid value, and
`format_row` re-raises the resulting `AttributeError` (lines 215-219),
so the listing aborts instead of showing a placeholder cell. -/
theorem format_row_aborts_on_failed_ppid :
    format_row "" lkInit (from_process ppidFailReads) []
      = Except.error (FmtError.attrError "parent_name") := rfl

/-- C3 (amended): attribute-read failures are stored as Field values at
construction (`from_process` is total) and matching never raises; at
rendering, a failure on any field other than the parent pid renders as
a dimmed placeholder cell and the row still formats — shown here for a
failed owner read — but a failure-valued parent pid (or a failed fresh
parent-name lookup) raises out of `format_row` instead. -/
theorem format_row_renders_owner_failure (home : String)
    (lk : Int → Except PError String) (r : AttrReads) (k : Int) (nm : String)
    (e : PError) (hpp : r.ppid = Except.ok k) (hlk : lk k = Except.ok nm)
    (hu : r.username = Except.error e) :
    ∃ cells, format_row home lk (from_process r) [] = Except.ok cells ∧
      cells.length = 9 ∧ cells.get? 8 = some ("[dim]" ++ errName e) := by
  have hbold : ∀ (f : String) (cell : String),
      boldify (from_process r) f cell = cell := by
    intro f cell
    simp [boldify, from_process]
  have hppid : (from_process r).ppid = ⟨"ppid", PValue.int k⟩ := by
    simp [from_process, hpp, capInt]
  have hpn : parent_name lk (from_process r)
      = Except.ok (some ⟨"parent", PValue.str nm⟩) := by
    rw [parent_name, hppid]
    simp [hlk]
  have huser : (from_process r).username = ⟨"username", PValue.err e⟩ := by
    simp [from_process, hu, capStr]
  have hufmt : fieldFormat home ⟨"username", PValue.err e⟩
      = "[dim]" ++ errName e := rfl
  refine ⟨[fieldFormat home ⟨"pid", PValue.int r.pid⟩,
    fieldFormat home ⟨"ppid", PValue.int k⟩,
    "[dim](" ++ nm ++ ")",
    fieldFormat home ⟨"name", capStr r.name⟩,
    fieldFormat home (cmdline0 (from_process r)),
    fieldFormat home ⟨"exe", capStr r.exe⟩,
    fieldFormat home ⟨"terminal", capOptStr r.terminal⟩,
    fieldFormat home ⟨"status", capStr r.status⟩,
    "[dim]" ++ errName e], ?_, rfl, rfl⟩
  simp only [format_row, defaultFields, List.isEmpty_nil, if_true,
    List.mapM_cons, List.mapM_nil, formatCell, getStoredField, hpn, hbold,
    hppid, huser, hufmt, valFStr]
  rfl

/-- C3 witness: a record with a failed owner read renders, owner cell a
dimmed placeholder. -/
theorem format_row_renders_owner_failure_witness :
    ({ okReads with username := Except.error PError.accessDenied }
        : AttrReads).ppid = Except.ok 1 ∧
    lkInit 1 = Except.ok "systemd" ∧
    ({ okReads with username := Except.error PError.accessDenied }
        : AttrReads).username = Except.error PError.accessDenied ∧
    ∃ cells,
      format_row "" lkInit
          (from_process
            { okReads with username := Except.error PError.accessDenied }) []
        = Except.ok cells ∧
      cells.length = 9 ∧
      cells.get? 8 = some ("[dim]" ++ errName PError.accessDenied) :=
  ⟨rfl, rfl, rfl,
    format_row_renders_owner_failure "" lkInit
      { okReads with username := Except.error PError.accessDenied }
      1 "systemd" PError.accessDenied rfl rfl rfl⟩

/-- C8 counterexample: the sort key contains the owner Field, so one
matched record whose owner read failed makes the single key comparison
of a two-record sort raise `TypeError`: no sorted output exists for
that matched set. -/
theorem sortPy_crashes_on_failed_owner :
    sortPy procLt [from_process okReads,
        from_process
          { okReads2 with username := Except.error PError.accessDenied }]
      = Except.error () := rfl

theorem processField_ext (f : ProcessField) (nm : String) (v : PValue)
    (h1 : f.name = nm) (h2 : f.value = v) : f = ⟨nm, v⟩ := by
  cases f
  cases h1
  cases h2
  rfl

theorem isClean_parts (p : ProcInfo) (h : isClean p = true) :
    ∃ su ku tu nu, p.username = ⟨"username", PValue.str su⟩ ∧
      p.ppid = ⟨"ppid", PValue.int ku⟩ ∧
      p.terminal = ⟨"terminal", PValue.str tu⟩ ∧
      p.pid = ⟨"pid", PValue.int nu⟩ := by
  simp only [isClean, Bool.and_eq_true, beq_iff_eq, isStrV_iff, isIntV_iff]
    at h
  obtain ⟨⟨⟨⟨⟨⟨⟨h1, s, hs⟩, h2⟩, k, hk⟩, h3⟩, t, ht⟩, h4⟩, n, hn⟩ := h
  exact ⟨s, k, t, n, processField_ext _ _ _ h1 hs,
    processField_ext _ _ _ h2 hk, processField_ext _ _ _ h3 ht,
    processField_ext _ _ _ h4 hn⟩

theorem extractKey_parts (p : ProcInfo) (su tu : String) (ku nu : Int)
    (h1 : p.username = ⟨"username", PValue.str su⟩)
    (h2 : p.ppid = ⟨"ppid", PValue.int ku⟩)
    (h3 : p.terminal = ⟨"terminal", PValue.str tu⟩)
    (h4 : p.pid = ⟨"pid", PValue.int nu⟩) :
    extractKey p = toLex (su, toLex (ku, toLex (tu, nu))) := by
  simp [extractKey, h1, h2, h3, h4, valStrD, valIntD]

theorem tupleLt_clean (su sv tu tv : String) (ku kv nu nv : Int) :
    tupleLt
        [⟨"username", PValue.str su⟩, ⟨"ppid", PValue.int ku⟩,
          ⟨"terminal", PValue.str tu⟩, ⟨"pid", PValue.int nu⟩]
        [⟨"username", PValue.str sv⟩, ⟨"ppid", PValue.int kv⟩,
          ⟨"terminal", PValue.str tv⟩, ⟨"pid", PValue.int nv⟩]
      = Except.ok (decide
          ((toLex (su, toLex (ku, toLex (tu, nu))) : SortKey)
            < toLex (sv, toLex (kv, toLex (tv, nv))))) := by
  by_cases h1 : su = sv
  · subst h1
    by_cases h2 : ku = kv
    · subst h2
      by_cases h3 : tu = tv
      · subst h3
        by_cases h4 : nu = nv
        · subst h4
          simp [tupleLt, fieldPyEq, pyEqV, fieldLt, pyLtV, Prod.Lex.lt_iff]
        · simp [tupleLt, fieldPyEq, pyEqV, fieldLt, pyLtV, h4,
            Prod.Lex.lt_iff]
      · simp [tupleLt, fieldPyEq, pyEqV, fieldLt, pyLtV, h3, Prod.Lex.lt_iff]
    · simp [tupleLt, fieldPyEq, pyEqV, fieldLt, pyLtV, h2, Prod.Lex.lt_iff]
  · simp [tupleLt, fieldPyEq, pyEqV, fieldLt, pyLtV, h1, Prod.Lex.lt_iff]

theorem procLt_clean (a b : ProcInfo) (ha : isClean a = true)
    (hb : isClean b = true) :
    procLt a b = Except.ok (decide (extractKey a < extractKey b)) := by
  obtain ⟨su, ku, tu, nu, ha1, ha2, ha3, ha4⟩ := isClean_parts a ha
  obtain ⟨sv, kv, tv, nv, hb1, hb2, hb3, hb4⟩ := isClean_parts b hb
  rw [procLt, sorter, sorter, ha1, ha2, ha3, ha4, hb1, hb2, hb3, hb4,
    tupleLt_clean, extractKey_parts a su tu ku nu ha1 ha2 ha3 ha4,
    extractKey_parts b sv tv kv nv hb1 hb2 hb3 hb4]

theorem insortB_perm (x : ProcInfo) (l : List ProcInfo) :
    (insortB x l).Perm (x :: l) := by
  induction l with
  | nil => exact List.Perm.refl _
  | cons y ys ih =>
    rw [insortB]
    by_cases h : extractKey x < extractKey y
    · rw [if_pos h]
    · rw [if_neg h]
      exact (ih.cons y).trans (List.Perm.swap x y ys)

theorem insortPy_clean (x : ProcInfo) (l : List ProcInfo)
    (hx : isClean x = true) (hl : ∀ y ∈ l, isClean y = true) :
    insortPy procLt x l = Except.ok (insortB x l) := by
  induction l with
  | nil => rfl
  | cons y ys ih =>
    have hy := hl y (by simp)
    have hys := ih (fun z hz => hl z (by simp [hz]))
    rw [insortPy, procLt_clean x y hx hy]
    by_cases hlt : extractKey x < extractKey y
    · simp only [insortB, hlt]
      rfl
    · simp only [insortB, hlt, hys, decide_eq_true_eq, if_neg hlt]
      rfl

theorem sortPy_clean_aux (l acc : List ProcInfo)
    (hl : ∀ p ∈ l, isClean p = true) (hacc : ∀ p ∈ acc, isClean p = true) :
    List.foldlM (fun acc x => insortPy procLt x acc) acc l
      = Except.ok (l.foldl (fun acc x => insortB x acc) acc) := by
  induction l generalizing acc with
  | nil => rfl
  | cons x xs ih =>
    have hx := hl x (by simp)
    rw [List.foldlM_cons, List.foldl_cons, insortPy_clean x acc hx hacc]
    have hacc' : ∀ p ∈ insortB x acc, isClean p = true := by
      intro p hp
      rcases List.mem_cons.mp ((insortB_perm x acc).mem_iff.mp hp) with
        rfl | hp'
      · exact hx
      · exact hacc p hp'
    have hxs : ∀ p ∈ xs, isClean p = true := fun p hp => hl p (by simp [hp])
    exact ih (insortB x acc) hxs hacc'

theorem sortPy_clean (l : List ProcInfo) (hl : ∀ p ∈ l, isClean p = true) :
    sortPy procLt l = Except.ok (sortB l) := by
  rw [sortPy, sortB]
  exact sortPy_clean_aux l [] hl (by simp)

theorem insortB_sorted (x : ProcInfo) (l : List ProcInfo)
    (h : l.Pairwise (fun a b => extractKey a ≤ extractKey b)) :
    (insortB x l).Pairwise (fun a b => extractKey a ≤ extractKey b) := by
  induction l with
  | nil => simp [insortB]
  | cons y ys ih =>
    rw [insortB]
    rcases List.pairwise_cons.mp h with ⟨hy, hys⟩
    by_cases hlt : extractKey x < extractKey y
    · rw [if_pos hlt]
      refine List.pairwise_cons.mpr ⟨?_, h⟩
      intro z hz
      rcases List.mem_cons.mp hz with rfl | hz'
      · exact le_of_lt hlt
      · exact le_trans (le_of_lt hlt) (hy z hz')
    · rw [if_neg hlt]
      refine List.pairwise_cons.mpr ⟨?_, ih hys⟩
      intro z hz
      rcases List.mem_cons.mp ((insortB_perm x ys).mem_iff.mp hz) with
        rfl | hz'
      · exact le_of_not_lt hlt
      · exact hy z hz'

theorem sortB_sorted_aux (l acc : List ProcInfo)
    (hacc : acc.Pairwise (fun a b => extractKey a ≤ extractKey b)) :
    (l.foldl (fun acc x => insortB x acc) acc).Pairwise
      (fun a b => extractKey a ≤ extractKey b) := by
  induction l generalizing acc with
  | nil => exact hacc
  | cons x xs ih =>
    rw [List.foldl_cons]
    exact ih (insortB x acc) (insortB_sorted x acc hacc)

theorem sortB_sorted (l : List ProcInfo) :
    (sortB l).Pairwise (fun a b => extractKey a ≤ extractKey b) :=
  sortB_sorted_aux l [] (by simp)

theorem sortB_perm_aux (l acc : List ProcInfo) :
    (l.foldl (fun acc x => insortB x acc) acc).Perm (acc ++ l) := by
  induction l generalizing acc with
  | nil => simp
  | cons x xs ih =>
    rw [List.foldl_cons]
    refine (ih (insortB x acc)).trans ?_
    exact (List.Perm.append_right xs (insortB_perm x acc)).trans
      List.perm_middle.symm

theorem sortB_perm (l : List ProcInfo) : (sortB l).Perm l := by
  simpa using sortB_perm_aux l []

theorem sortB_eq_of_perm (l₁ l₂ : List ProcInfo) (hperm : l₁.Perm l₂)
    (hkeys : l₁.Pairwise (fun a b => extractKey a ≠ extractKey b)) :
    sortB l₁ = sortB l₂ := by
  have hk₁ : (sortB l₁).Pairwise (fun a b => extractKey a ≠ extractKey b) :=
    ((sortB_perm l₁).pairwise_iff (fun {a b} h he => h he.symm)).mpr hkeys
  have hk₂ : (sortB l₂).Pairwise (fun a b => extractKey a ≠ extractKey b) :=
    ((sortB_perm l₂).pairwise_iff (fun {a b} h he => h he.symm)).mpr
      ((hperm.pairwise_iff (fun {a b} h he => h he.symm)).mp hkeys)
  have hstrict₁ : (sortB l₁).Pairwise
      (fun a b => extractKey a < extractKey b) :=
    ((sortB_sorted l₁).and hk₁).imp
      (fun {a b} h => lt_of_le_of_ne h.1 h.2)
  have hstrict₂ : (sortB l₂).Pairwise
      (fun a b => extractKey a < extractKey b) :=
    ((sortB_sorted l₂).and hk₂).imp
      (fun {a b} h => lt_of_le_of_ne h.1 h.2)
  haveI : IsAntisymm ProcInfo (fun a b => extractKey a < extractKey b) :=
    ⟨fun a b h1 h2 => absurd h2 (lt_asymm h1)⟩
  exact List.eq_of_perm_of_sorted
    ((sortB_perm l₁).trans (hperm.trans (sortB_perm l₂).symm))
    hstrict₁ hstrict₂

/-- C8 (amended): on matched sets whose records carry actual comparable
key values (string owner, int parent pid, string terminal, int pid)
with pairwise distinct pids, the sort succeeds, its output is sorted
ascending by the key tuple (owner, parent pid, terminal, pid), and
permuting the input order yields the same output; a failure value in a
key position instead makes the sort comparison raise. -/
theorem sorted_output_clean (l₁ l₂ : List ProcInfo)
    (hc : ∀ p ∈ l₁, isClean p = true)
    (hpid : l₁.Pairwise (fun a b => a.pid.value ≠ b.pid.value))
    (hperm : l₁.Perm l₂) :
    ∃ s, sortPy procLt l₁ = Except.ok s ∧ sortPy procLt l₂ = Except.ok s ∧
      s.Perm l₁ ∧
      s.Pairwise (fun a b => extractKey a ≤ extractKey b) := by
  have hc₂ : ∀ p ∈ l₂, isClean p = true := fun p hp =>
    hc p (hperm.mem_iff.mpr hp)
  have hkeys : l₁.Pairwise (fun a b => extractKey a ≠ extractKey b) := by
    refine hpid.imp_of_mem ?_
    intro a b ha hb hne hke
    obtain ⟨su, ku, tu, nu, ha1, ha2, ha3, ha4⟩ :=
      isClean_parts a (hc a ha)
    obtain ⟨sv, kv, tv, nv, hb1, hb2, hb3, hb4⟩ :=
      isClean_parts b (hc b hb)
    rw [extractKey_parts a su tu ku nu ha1 ha2 ha3 ha4,
      extractKey_parts b sv tv kv nv hb1 hb2 hb3 hb4] at hke
    have hnn : nu = nv := by
      have h1 := congrArg ofLex hke
      have h2 := congrArg (fun q => ofLex q.2) h1
      have h3 := congrArg (fun q => ofLex q.2) h2
      exact congrArg Prod.snd h3
    apply hne
    rw [ha4, hb4, hnn]
  refine ⟨sortB l₁, sortPy_clean l₁ hc, ?_, sortB_perm l₁, sortB_sorted l₁⟩
  rw [sortPy_clean l₂ hc₂, sortB_eq_of_perm l₁ l₂ hperm hkeys]

/-- C8 witness: two clean records in either input order sort to the
same output. -/
theorem sorted_output_clean_witness :
    (∀ p ∈ [from_process okReads, from_process okReads2],
        isClean p = true) ∧
    ([from_process okReads, from_process okReads2].Pairwise
        (fun a b => a.pid.value ≠ b.pid.value)) ∧
    ([from_process okReads, from_process okReads2].Perm
        [from_process okReads2, from_process okReads]) ∧
    (∃ s, sortPy procLt [from_process okReads, from_process okReads2]
          = Except.ok s ∧
        sortPy procLt [from_process okReads2, from_process okReads]
          = Except.ok s ∧
        s.Perm [from_process okReads, from_process okReads2] ∧
        s.Pairwise (fun a b => extractKey a ≤ extractKey b)) :=
  ⟨by decide, by decide, by decide,
    sorted_output_clean [from_process okReads, from_process okReads2]
      [from_process okReads2, from_process okReads]
      (by decide) (by decide) (by decide)⟩
